import Mathlib

/-!
A shallow embedding of the `param` form/query decoding library: a flat
multimap of bracket-nested string keys to lists of string values is decoded
into a nested destination value (structs, maps, slices, pointers, scalar
and text-unmarshalable leaves), with a per-struct metadata cache.

Machine integers are modelled as `Int`/`Nat` with explicit range checks per
bit width.  Floating-point values are modelled as rationals read from
decimal syntax: binary rounding, IEEE special values and overflow-to-range
errors of `strconv.ParseFloat` are not modelled, since no claim depends on
float conversion semantics (only on leaf arity checking).  Types whose
pointer implements `encoding.TextUnmarshaler` are modelled by the shape
`Ty.textual`, whose unmarshal operation is abstracted as a success
predicate `tu : String → Bool` threaded through the decoder (the decoded
state is modelled as the raw text); the decoder never inspects such a type
further, mirroring the source, which routes to `parseTextUnmarshaler`
before any kind switch.
-/

namespace Param

/-- Metadata of one declared struct field apart from its type: identifier,
`param` tag, `json` tag, package path (empty iff the field is exported) and
the anonymous/embedded flag. -/
structure FieldInfo where
  name : String
  paramTag : String
  jsonTag : String
  pkgPath : String
  anonymous : Bool
deriving DecidableEq

/-- Shapes of decode targets: the kinds the decoder dispatches on.
`textual` stands for any type whose pointer implements
`encoding.TextUnmarshaler`; `chanT` stands for every kind that falls
through the decoder's shape switch (channels, functions, complex numbers,
interfaces, fixed arrays, ...), all of which behave identically there. -/
inductive Ty where
  | bool : Ty
  | int : Nat → Ty
  | uint : Nat → Ty
  | float : Nat → Ty
  | str : Ty
  | textual : Ty
  | map : Ty → Ty → Ty
  | ptr : Ty → Ty
  | slice : Ty → Ty
  | struct : List (FieldInfo × Ty) → Ty
  | chanT : Ty

/-- Runtime values, one constructor per shape.  `map none` and
`slice none` model Go's nil map and nil slice; `ptr none` a nil pointer.
A map is an association list of string keys (map key shapes must be
string-kinded to be decodable).  The state of a text-unmarshalable value
is the text it was last successfully unmarshalled from (`none` = zero). -/
inductive Val where
  | bool : Bool → Val
  | int : Int → Val
  | uint : Nat → Val
  | float : Rat → Val
  | str : String → Val
  | textual : Option String → Val
  | map : Option (List (String × Val)) → Val
  | ptr : Option Val → Val
  | slice : Option (List Val) → Val
  | struct : List Val → Val
  | chanV : Val

mutual

/-- The zero value of a shape (`reflect.New(t).Elem()`). -/
def zeroVal : Ty → Val
  | .bool => .bool false
  | .int _ => .int 0
  | .uint _ => .uint 0
  | .float _ => .float 0
  | .str => .str ""
  | .textual => .textual none
  | .map _ _ => .map none
  | .ptr _ => .ptr none
  | .slice _ => .slice none
  | .struct fs => .struct (zeroFields fs)
  | .chanT => .chanV

def zeroFields : List (FieldInfo × Ty) → List Val
  | [] => []
  | f :: fs => zeroVal f.2 :: zeroFields fs

end

/-- The two subtypes of `SyntaxError`. -/
inductive SyntaxKind where
  | missingOpeningBracket : SyntaxKind
  | missingClosingBracket : SyntaxKind
deriving DecidableEq

/-- Wrapped causes of a `ValueError`: the `strconv.NumError.Err` values
`ErrSyntax` and `ErrRange`, or an error from `UnmarshalText`. -/
inductive ErrCause where
  | numErrSyntaxErr : ErrCause
  | numErrRangeErr : ErrCause
  | textErr : ErrCause
deriving DecidableEq

/-- The content of an `InvalidParseError` hint, abstracted from its
formatted text. -/
inductive Hint where
  | targetNotStructPtr : Hint
  | nilTarget : Hint
  | mapKeysNotString : Ty → Hint
  | fieldInStruct : String → Ty → Hint

/-- The closed error taxonomy. -/
inductive Err where
  | syntaxErr : String → SyntaxKind → String → Err
  | nesting : String → Ty → String → Err
  | singleton : String → Ty → List String → Err
  | valueErr : String → Ty → Option ErrCause → Err
  | keyErr : String → String → Ty → String → Err
  | invalidParse : Ty → Option Hint → Err

/-- `key[:len(key)-len(keytail)]`: the path consumed so far, used for
error context.  Go slices bytes; since `keytail` is in practice always a
suffix of `key`, taking `key.length - keytail.length` characters agrees
with the byte slicing. -/
def kpath (key keytail : String) : String :=
  key.take (key.length - keytail.length)

/-- Validate that a value has been passed exactly once and that the user
is not attempting to nest on the key (the source's `primitive`). -/
def primitive (key keytail : String) (tipe : Ty) (values : List String) :
    Except Err Unit :=
  if keytail ≠ "" then
    .error (.nesting (kpath key keytail) tipe keytail)
  else if values.length ≠ 1 then
    .error (.singleton (kpath key keytail) tipe values)
  else
    .ok ()

/-- Split a character list at the first occurrence of a character
satisfying `p`: returns the prefix before it and, when found, the suffix
after it (the occurrence itself is dropped). -/
def splitOnce (p : Char → Bool) : List Char → List Char × Option (List Char)
  | [] => ([], none)
  | c :: cs =>
    if p c then ([], some cs)
    else
      let r := splitOnce p cs
      (c :: r.1, r.2)

/-- `strings.IndexRune(key, c)` based splitting: prefix before the first
`c` and the remainder starting at `c` (empty remainder when absent). -/
def splitKey (key : String) : String × String :=
  let r := splitOnce (fun c => c = '[') key.toList
  match r.2 with
  | none => (key, "")
  | some rest => (String.mk r.1, String.mk ('[' :: rest))

/-- The source's `keyed`: the keytail must start with `[`; the bracket
content up to the first `]` is the resolved sub-key, the rest of the
keytail is returned for further recursion.  The `tipe` argument is unused,
as in the source. -/
def keyed (_tipe : Ty) (key keytail : String) :
    Except Err (String × String) :=
  match keytail.toList with
  | [] => .error (.syntaxErr (kpath key keytail) .missingOpeningBracket keytail)
  | c :: rest =>
    if c = '[' then
      let r := splitOnce (fun ch => ch = ']') rest
      match r.2 with
      | some after => .ok (String.mk r.1, String.mk after)
      | none =>
        .error (.syntaxErr (kpath key keytail) .missingClosingBracket
          (String.mk rest))
    else
      .error (.syntaxErr (kpath key keytail) .missingOpeningBracket keytail)

/-- Whether every character is a decimal digit. -/
def allDigits (cs : List Char) : Bool := cs.all Char.isDigit

/-- Value of a run of decimal digits (0 for the empty run). -/
def digitsFold (cs : List Char) : Nat :=
  cs.foldl (fun a c => a * 10 + (c.toNat - 48)) 0

/-- Value of a nonempty run of decimal digits, `none` otherwise. -/
def digitsVal (cs : List Char) : Option Nat :=
  if cs ≠ [] ∧ allDigits cs then some (digitsFold cs) else none

/-- `strconv.ParseInt(s, 10, bits)`: optional sign, nonempty digits,
range check for the signed `bits`-bit range. -/
def goParseInt (s : String) (bits : Nat) : Except ErrCause Int :=
  let sr : Bool × List Char :=
    match s.toList with
    | '-' :: cs => (true, cs)
    | '+' :: cs => (false, cs)
    | cs => (false, cs)
  match digitsVal sr.2 with
  | none => .error .numErrSyntaxErr
  | some n =>
    if sr.1 then
      if n ≤ 2 ^ (bits - 1) then .ok (-(n : Int)) else .error .numErrRangeErr
    else
      if n < 2 ^ (bits - 1) then .ok (n : Int) else .error .numErrRangeErr

/-- `strconv.ParseUint(s, 10, bits)`: no sign permitted, nonempty digits,
range check for the unsigned `bits`-bit range. -/
def goParseUint (s : String) (bits : Nat) : Except ErrCause Nat :=
  match digitsVal s.toList with
  | none => .error .numErrSyntaxErr
  | some n =>
    if n < 2 ^ bits then .ok n else .error .numErrRangeErr

/-- `strconv.ParseFloat` restricted to plain decimal syntax (optional
sign, digits with optional fraction, optional decimal exponent), read as
an exact rational.  Hex floats, `inf`/`NaN`, underscores, binary rounding
and range errors are not modelled; no claim depends on them. -/
def goParseFloat (s : String) : Option Rat :=
  let sr : Bool × List Char :=
    match s.toList with
    | '-' :: cs => (true, cs)
    | '+' :: cs => (false, cs)
    | cs => (false, cs)
  let me := splitOnce (fun c => c = 'e' ∨ c = 'E') sr.2
  let ifr := splitOnce (fun c => c = '.') me.1
  let ip := ifr.1
  let fp := (ifr.2).getD []
  if allDigits ip ∧ allDigits fp ∧ (ip ≠ [] ∨ fp ≠ []) then
    let base : Rat :=
      (digitsFold ip : Rat) + (digitsFold fp : Rat) / ((10 : Rat) ^ fp.length)
    let signed : Rat := if sr.1 then -base else base
    match me.2 with
    | none => some signed
    | some ecs =>
      let er : Bool × List Char :=
        match ecs with
        | '-' :: cs => (true, cs)
        | '+' :: cs => (false, cs)
        | cs => (false, cs)
      match digitsVal er.2 with
      | none => none
      | some n =>
        some (if er.1 then signed / ((10 : Rat) ^ n) else signed * (10 : Rat) ^ n)
  else none

/-- Bit width of a numeric shape (`reflect.Type.Bits`); 0 on shapes the
source never queries. -/
def tyBits : Ty → Nat
  | .int b => b
  | .uint b => b
  | .float b => b
  | _ => 0

/-- The single value of a value list known to have passed `primitive`. -/
def theValue (values : List String) : String := values.headD ""

def parseBool (key keytail : String) (values : List String) (ty : Ty)
    (_target : Val) : Except Err Val :=
  match primitive key keytail ty values with
  | .error e => .error e
  | .ok _ =>
    match theValue values with
    | "true" | "1" | "on" => .ok (.bool true)
    | "false" | "0" | "" => .ok (.bool false)
    | _ => .error (.valueErr (kpath key keytail) ty none)

def parseInt (key keytail : String) (values : List String) (ty : Ty)
    (_target : Val) : Except Err Val :=
  match primitive key keytail ty values with
  | .error e => .error e
  | .ok _ =>
    match goParseInt (theValue values) (tyBits ty) with
    | .error c => .error (.valueErr (kpath key keytail) ty (some c))
    | .ok n => .ok (.int n)

def parseUint (key keytail : String) (values : List String) (ty : Ty)
    (_target : Val) : Except Err Val :=
  match primitive key keytail ty values with
  | .error e => .error e
  | .ok _ =>
    match goParseUint (theValue values) (tyBits ty) with
    | .error c => .error (.valueErr (kpath key keytail) ty (some c))
    | .ok n => .ok (.uint n)

def parseFloat (key keytail : String) (values : List String) (ty : Ty)
    (_target : Val) : Except Err Val :=
  match primitive key keytail ty values with
  | .error e => .error e
  | .ok _ =>
    match goParseFloat (theValue values) with
    | none => .error (.valueErr (kpath key keytail) ty (some .numErrSyntaxErr))
    | some q => .ok (.float q)

def parseString (key keytail : String) (values : List String) (ty : Ty)
    (_target : Val) : Except Err Val :=
  match primitive key keytail ty values with
  | .error e => .error e
  | .ok _ => .ok (.str (theValue values))

/-- `parseTextUnmarshaler`: the sole value's text is passed to the
shape's own unmarshal operation, abstracted as the predicate `tu`; a
failure is wrapped as a `ValueError` carrying the cause. -/
def parseTextUnmarshaler (tu : String → Bool) (key keytail : String)
    (values : List String) (ty : Ty) (_target : Val) : Except Err Val :=
  match primitive key keytail ty values with
  | .error e => .error e
  | .ok _ =>
    if tu (theValue values) then .ok (.textual (some (theValue values)))
    else .error (.valueErr (kpath key keytail) ty (some .textErr))

/-- Association-list lookup for string-keyed tables (Go map reads). -/
def alookup {α : Type} : List (String × α) → String → Option α
  | [], _ => none
  | (k, v) :: rest, key => if k = key then some v else alookup rest key

/-- Association-list update for string-keyed tables (Go map assignment:
overwrite the existing binding, else append). -/
def aset {α : Type} : List (String × α) → String → α → List (String × α)
  | [], key, v => [(key, v)]
  | (k, w) :: rest, key, v =>
    if k = key then (key, v) :: rest else (k, w) :: aset rest key v

/-- The precomputed per-field decode routine stored in a cache line: one
tag per parse function `extractHandler` can return. -/
inductive Handler where
  | textUnmarshaler : Handler
  | bool : Handler
  | int : Handler
  | uint : Handler
  | float : Handler
  | map : Handler
  | ptr : Handler
  | slice : Handler
  | str : Handler
  | struct : Handler
deriving DecidableEq

/-- One struct-cache entry: field index and precomputed parse routine. -/
structure CacheLine where
  offset : Nat
  handler : Handler
deriving DecidableEq

/-- Per-struct field table: resolved external field name to cache line. -/
abbrev StructCache := List (String × CacheLine)

/-- `name[:strings.IndexRune(name, ',')]` when a comma occurs. -/
def truncAtComma (s : String) : String :=
  String.mk (splitOnce (fun c => c = ',') s.toList).1

/-- The source's `extractName`: `param` tag, else `json` tag truncated at
the first comma, else the declared field identifier. -/
def extractName (sf : FieldInfo) : String :=
  let name := sf.paramTag
  let name := if name = "" then truncAtComma sf.jsonTag else name
  let name := if name = "" then sf.name else name
  name

/-- The source's `extractHandler`: choose the parse routine for a field
of shape `sfTy` by the same shape switch as the dispatcher; unsupported
shapes fail the cache build with an `InvalidParseError` naming the field
and its owning struct `s`. -/
def extractHandler (s : Ty) (sf : FieldInfo) (sfTy : Ty) :
    Except Err Handler :=
  match sfTy with
  | .textual => .ok .textUnmarshaler
  | .bool => .ok .bool
  | .int _ => .ok .int
  | .uint _ => .ok .uint
  | .float _ => .ok .float
  | .map _ _ => .ok .map
  | .ptr _ => .ok .ptr
  | .slice _ => .ok .slice
  | .str => .ok .str
  | .struct _ => .ok .struct
  | .chanT => .error (.invalidParse s (some (.fieldInStruct sf.name s)))

/-- The field-iteration loop of the source's `cacheStruct`: skip
unexported non-anonymous fields, resolve each name, skip names resolving
to `"-"`, and abort the whole build on the first unsupported field. -/
def buildFields (t : Ty) : Nat → List (FieldInfo × Ty) → StructCache →
    Except Err StructCache
  | _, [], sc => .ok sc
  | i, (sf, fty) :: rest, sc =>
    if sf.pkgPath ≠ "" ∧ ¬sf.anonymous then buildFields t (i + 1) rest sc
    else
      let name := extractName sf
      if name = "-" then buildFields t (i + 1) rest sc
      else
        match extractHandler t sf fty with
        | .error e => .error e
        | .ok h => buildFields t (i + 1) rest (aset sc name ⟨i, h⟩)

/-- The declared fields of a struct shape. -/
def structFields : Ty → List (FieldInfo × Ty)
  | .struct fs => fs
  | _ => []

/-- Building a struct's field table from its shape alone: the cache-miss
path of the source's `cacheStruct`.  (The published cache is pure
memoization of this function; the stateful wrapper is `cacheStruct`
below.) -/
def buildStructCache (t : Ty) : Except Err StructCache :=
  buildFields t 0 (structFields t) []

/-- `reflect.Value.MapIndex` returns a non-addressable `Value`, so
`CanSet` on its result is always false: the element fetched from a map is
never decodable in place. -/
def mapIndexCanSet : Bool := false

/-- `t.Key().Kind() == reflect.String`: string and string-derived key
shapes.  (A text-unmarshalable key shape whose underlying kind is string
is not representable here; no claim involves one.) -/
def mapKeyIsString : Ty → Bool
  | .str => true
  | _ => false

/-- `sizeOf` of a field's type is below `sizeOf` of the owning struct
shape; used for the decoder's termination. -/
theorem sizeOf_field_lt {fs : List (FieldInfo × Ty)} {p : FieldInfo × Ty}
    (hm : p ∈ fs) : sizeOf p.2 < sizeOf (Ty.struct fs) := by
  have h2 : sizeOf p < sizeOf fs := List.sizeOf_lt_of_mem hm
  have h3 : sizeOf p = 1 + sizeOf p.1 + sizeOf p.2 := by
    cases p; simp
  simp only [Ty.struct.sizeOf_spec]
  omega

mutual

/-- The type dispatcher `parse`: the sole recursion point of the decoder.
A shape with the text-unmarshal capability is routed to the textual leaf
decoder before any structural dispatch; every other shape dispatches on
its kind, and unsupported kinds fail with an `InvalidParseError`. -/
def parse (tu : String → Bool) (key keytail : String)
    (values : List String) (ty : Ty) (target : Val) : Except Err Val :=
  match ty with
  | .textual => parseTextUnmarshaler tu key keytail values ty target
  | .bool => parseBool key keytail values ty target
  | .int _ => parseInt key keytail values ty target
  | .uint _ => parseUint key keytail values ty target
  | .float _ => parseFloat key keytail values ty target
  | .map kt et => parseMap tu key keytail values (.map kt et) target
  | .ptr et => parsePtr tu key keytail values (.ptr et) target
  | .slice et => parseSlice tu key keytail values (.slice et) target
  | .str => parseString key keytail values ty target
  | .struct fs => parseStruct tu key keytail values (.struct fs) target
  | .chanT => .error (.invalidParse ty none)
termination_by (sizeOf ty, 3, 0)

/-- The source's `parseMap`: take one bracket segment as the map key;
non-string key shapes fail; a nil map is allocated empty; the element
decoded into is the `MapIndex` fetch when it is settable (it never is,
see `mapIndexCanSet`), else a zero value; the decoded element is written
back under the resolved key. -/
def parseMap (tu : String → Bool) (key keytail : String)
    (values : List String) (ty : Ty) (target : Val) : Except Err Val :=
  match ty, target with
  | .map kt et, .map entries =>
    match keyed (Ty.map kt et) key keytail with
    | .error e => .error e
    | .ok kr =>
      if mapKeyIsString kt then
        let es := entries.getD []
        let val : Val :=
          match alookup es kr.1 with
          | some old => if mapIndexCanSet then old else zeroVal et
          | none => zeroVal et
        match parse tu key kr.2 values et val with
        | .error e => .error e
        | .ok v => .ok (.map (some (aset es kr.1 v)))
      else
        .error (.invalidParse (Ty.map kt et) (some (.mapKeysNotString kt)))
  | _, _ => .error (.invalidParse ty none)
termination_by (sizeOf ty, 2, 0)

/-- The source's `parsePtr`: a nil slot is filled with a reference to a
fresh zero value of the pointee shape, then decoding recurses into the
pointee with the unmodified keytail and values. -/
def parsePtr (tu : String → Bool) (key keytail : String)
    (values : List String) (ty : Ty) (target : Val) : Except Err Val :=
  match ty, target with
  | .ptr et, .ptr p =>
    let inner := match p with
      | none => zeroVal et
      | some v => v
    match parse tu key keytail values et inner with
    | .error e => .error e
    | .ok v => .ok (.ptr (some v))
  | _, _ => .error (.invalidParse ty none)
termination_by (sizeOf ty, 2, 0)

/-- The source's `parseSlice`: the keytail must be exactly `"[]"`; a new
slice of one element per value is built, element `i` decoded from
`values[i]` alone under a synthesized debug key, and the built slice
replaces the target in full. -/
def parseSlice (tu : String → Bool) (key keytail : String)
    (values : List String) (ty : Ty) (_target : Val) : Except Err Val :=
  match ty with
  | .slice et =>
    if keytail ≠ "[]" then
      .error (.nesting (kpath key keytail) (Ty.slice et) keytail)
    else
      match parseElems tu (kpath key keytail) 0 values et with
      | .error e => .error e
      | .ok elems => .ok (.slice (some elems))
  | _ => .error (.invalidParse ty none)
termination_by (sizeOf ty, 2, 0)

/-- The element loop of `parseSlice`: element `i` is the decode of
`values[i]` alone, with empty keytail, into a zero element, under the
debug key `kp[i]`. -/
def parseElems (tu : String → Bool) (kp : String) (i : Nat)
    (vals : List String) (et : Ty) : Except Err (List Val)  :=
  match vals with
  | [] => .ok []
  | v :: rest =>
    match parse tu (kp ++ "[" ++ toString i ++ "]") "" [v] et (zeroVal et) with
    | .error e => .error e
    | .ok x =>
      match parseElems tu kp (i + 1) rest et with
      | .error e => .error e
      | .ok xs => .ok (x :: xs)
termination_by (sizeOf et, 4, vals.length)

/-- The source's `parseStruct`: take one bracket segment as the field
name, build (or fetch) the struct's field table, and hand off to
`parseStructField`. -/
def parseStruct (tu : String → Bool) (key keytail : String)
    (values : List String) (ty : Ty) (target : Val) : Except Err Val :=
  match keyed ty key keytail with
  | .error e => .error e
  | .ok kr =>
    match buildStructCache ty with
    | .error e => .error e
    | .ok sc => parseStructField tu sc key kr.1 kr.2 values ty target
termination_by (sizeOf ty, 2, 0)

/-- The source's `parseStructField`: look the resolved head up in the
field table — an absent name is a `KeyError` — then run the cached parse
routine on the addressed field slot and write the result back. -/
def parseStructField (tu : String → Bool) (sc : StructCache)
    (key sk keytail : String) (values : List String) (ty : Ty)
    (target : Val) : Except Err Val :=
  match alookup sc sk with
  | none => .error (.keyErr key (kpath key keytail) ty sk)
  | some l =>
    match ty, target with
    | .struct fs, .struct fvals =>
      if h : l.offset < fs.length then
        match applyHandler tu l.handler key keytail values fs[l.offset].2
            (fvals.getD l.offset (zeroVal fs[l.offset].2)) with
        | .error e => .error e
        | .ok fv => .ok (.struct (fvals.set l.offset fv))
      else
        -- unreachable: offsets index the field list the table was built from
        .error (.invalidParse (Ty.struct fs) none)
    | _, _ =>
      -- unreachable: a target value always inhabits its shape
      .error (.invalidParse ty none)
termination_by (sizeOf ty, 1, 0)
decreasing_by
  have h2 := sizeOf_field_lt (List.getElem_mem h)
  simp only [Ty.struct.sizeOf_spec] at h2
  decreasing_tactic

/-- Run a cached parse routine: each `Handler` tag denotes the
corresponding parse function stored in the cache line. -/
def applyHandler (tu : String → Bool) (h : Handler) (key keytail : String)
    (values : List String) (fty : Ty) (fv : Val) : Except Err Val :=
  match h with
  | .textUnmarshaler => parseTextUnmarshaler tu key keytail values fty fv
  | .bool => parseBool key keytail values fty fv
  | .int => parseInt key keytail values fty fv
  | .uint => parseUint key keytail values fty fv
  | .float => parseFloat key keytail values fty fv
  | .map => parseMap tu key keytail values fty fv
  | .ptr => parsePtr tu key keytail values fty fv
  | .slice => parseSlice tu key keytail values fty fv
  | .str => parseString key keytail values fty fv
  | .struct => parseStruct tu key keytail values fty fv
termination_by (sizeOf fty, 3, 0)

end

/-- The per-key loop of the entry point: split each key at the first `[`
into head and keytail and replay it against the target struct through
`parseStructField`; the first error aborts the call. -/
def parseLoop (tu : String → Bool) (sc : StructCache) (t : Ty) :
    List (String × List String) → Val → Except Err Val
  | [], el => .ok el
  | (key, values) :: rest, el =>
    let r := splitKey key
    match parseStructField tu sc key r.1 r.2 values t el with
    | .error e => .error e
    | .ok el2 => parseLoop tu sc t rest el2

/-- The source's `Parse` entry point.  The target must be a non-nil
pointer to a struct: anything else fails with an `InvalidParseError`
whose hint distinguishes a nil pointer from a non-struct target.  The
struct's metadata is built before any input pair is examined.  The input
multimap is modelled as an association list (Go map iteration order is
unspecified; no claim depends on it).  On success the updated target is
returned in place of Go's in-place mutation. -/
def Parse (tu : String → Bool) (params : List (String × List String))
    (ty : Ty) (target : Val) : Except Err Val :=
  match ty, target with
  | .ptr et, .ptr p =>
    match p with
    | none => .error (.invalidParse (Ty.ptr et) (some .nilTarget))
    | some el =>
      match et with
      | .struct fs =>
        match buildStructCache (.struct fs) with
        | .error e => .error e
        | .ok sc =>
          match parseLoop tu sc (.struct fs) params el with
          | .error e => .error e
          | .ok el2 => .ok (.ptr (some el2))
      | _ => .error (.invalidParse (Ty.ptr et) (some .targetNotStructPtr))
  | _, _ => .error (.invalidParse ty (some .targetNotStructPtr))

mutual

/-- Boolean equality of shapes, standing in for `reflect.Type` identity
as the key of the process-wide struct cache. -/
def tyBeq : Ty → Ty → Bool
  | .bool, .bool => true
  | .int a, .int b => a == b
  | .uint a, .uint b => a == b
  | .float a, .float b => a == b
  | .str, .str => true
  | .textual, .textual => true
  | .map k1 e1, .map k2 e2 => tyBeq k1 k2 && tyBeq e1 e2
  | .ptr a, .ptr b => tyBeq a b
  | .slice a, .slice b => tyBeq a b
  | .struct fs, .struct gs => fieldListBeq fs gs
  | .chanT, .chanT => true
  | _, _ => false

def fieldListBeq : List (FieldInfo × Ty) → List (FieldInfo × Ty) → Bool
  | [], [] => true
  | (f, t) :: fs, (g, u) :: gs => (f == g) && tyBeq t u && fieldListBeq fs gs
  | _, _ => false

end

/-- The process-wide struct cache, modelled as explicit state: shape to
published field table. -/
abbrev Cache := List (Ty × StructCache)

def cacheLookup : Cache → Ty → Option StructCache
  | [], _ => none
  | (k, sc) :: rest, t => if tyBeq k t then some sc else cacheLookup rest t

def cachePublish : Cache → Ty → StructCache → Cache
  | [], t, sc => [(t, sc)]
  | (k, w) :: rest, t, sc =>
    if tyBeq k t then (t, sc) :: rest else (k, w) :: cachePublish rest t sc

/-- The source's `cacheStruct` with the global locked cache as explicit
state (the decode path itself uses `buildStructCache`, of which every
published entry is the pure memoization): look the shape up; on a miss,
build the field table; publish it only when the build succeeded.  Returns
the result and the possibly-extended cache. -/
def cacheStruct (c : Cache) (t : Ty) : Except Err StructCache × Cache :=
  match cacheLookup c t with
  | some sc => (.ok sc, c)
  | none =>
    match buildStructCache t with
    | .error e => (.error e, c)
    | .ok sc => (.ok sc, cachePublish c t sc)

mutual

/-- The decode recursion with its depth made explicit as fuel: `none`
means the fuel ran out.  Each recursion into the dispatcher — the sole
recursion point — consumes one unit: the map, slice and struct cases
strip one bracket segment from the keytail and step to a structurally
smaller shape, and the pointer case keeps the keytail but removes one
layer of indirection.  In the struct case the cached routine applied to
a field is the very routine the dispatcher selects for the field's shape
(`extractHandler` and `parse` use the same switch), so the recursion into
the field slot is modelled as a recursion into the dispatcher. -/
def parseF (tu : String → Bool) : Nat → String → String → List String →
    Ty → Val → Option (Except Err Val)
  | 0, _, _, _, _, _ => none
  | fuel + 1, key, keytail, values, ty, target =>
    match ty, target with
    | .textual, _ => some (parseTextUnmarshaler tu key keytail values .textual target)
    | .bool, _ => some (parseBool key keytail values .bool target)
    | .int b, _ => some (parseInt key keytail values (.int b) target)
    | .uint b, _ => some (parseUint key keytail values (.uint b) target)
    | .float b, _ => some (parseFloat key keytail values (.float b) target)
    | .str, _ => some (parseString key keytail values .str target)
    | .chanT, _ => some (.error (.invalidParse .chanT none))
    | .map kt et, .map entries =>
      match keyed (Ty.map kt et) key keytail with
      | .error e => some (.error e)
      | .ok kr =>
        if mapKeyIsString kt then
          let es := entries.getD []
          let val : Val :=
            match alookup es kr.1 with
            | some old => if mapIndexCanSet then old else zeroVal et
            | none => zeroVal et
          match parseF tu fuel key kr.2 values et val with
          | none => none
          | some (.error e) => some (.error e)
          | some (.ok v) => some (.ok (.map (some (aset es kr.1 v))))
        else
          some (.error (.invalidParse (Ty.map kt et) (some (.mapKeysNotString kt))))
    | .map kt et, _ => some (.error (.invalidParse (Ty.map kt et) none))
    | .ptr et, .ptr p =>
      match parseF tu fuel key keytail values et (p.getD (zeroVal et)) with
      | none => none
      | some (.error e) => some (.error e)
      | some (.ok v) => some (.ok (.ptr (some v)))
    | .ptr et, _ => some (.error (.invalidParse (Ty.ptr et) none))
    | .slice et, _ =>
      if keytail ≠ "[]" then
        some (.error (.nesting (kpath key keytail) (Ty.slice et) keytail))
      else
        match parseElemsF tu fuel (kpath key keytail) 0 values et with
        | none => none
        | some (.error e) => some (.error e)
        | some (.ok elems) => some (.ok (.slice (some elems)))
    | .struct fs, .struct fvals =>
      match keyed (Ty.struct fs) key keytail with
      | .error e => some (.error e)
      | .ok kr =>
        match buildStructCache (.struct fs) with
        | .error e => some (.error e)
        | .ok sc =>
          match alookup sc kr.1 with
          | none => some (.error (.keyErr key (kpath key kr.2) (.struct fs) kr.1))
          | some l =>
            match fs[l.offset]? with
            | some p =>
              match parseF tu fuel key kr.2 values p.2
                  (fvals.getD l.offset (zeroVal p.2)) with
              | none => none
              | some (.error e) => some (.error e)
              | some (.ok fv) => some (.ok (.struct (fvals.set l.offset fv)))
            | none => some (.error (.invalidParse (Ty.struct fs) none))
    | .struct fs, _ => some (.error (.invalidParse (Ty.struct fs) none))
termination_by fuel => (fuel, 0, 0)

/-- The fueled element loop of the sequence decoder: sibling elements are
decoded at the same depth. -/
def parseElemsF (tu : String → Bool) : Nat → String → Nat → List String →
    Ty → Option (Except Err (List Val))
  | _, _, _, [], _ => some (.ok [])
  | fuel, kp, i, v :: rest, et =>
    match parseF tu fuel (kp ++ "[" ++ toString i ++ "]") "" [v] et (zeroVal et) with
    | none => none
    | some (.error e) => some (.error e)
    | some (.ok x) =>
      match parseElemsF tu fuel kp (i + 1) rest et with
      | none => none
      | some (.error e) => some (.error e)
      | some (.ok xs) => some (.ok (x :: xs))
termination_by fuel _ _ vals => (fuel, 1, vals.length)

end

/-- Leaf shapes: scalar or text-unmarshalable, accepting exactly one
value and no further nesting. -/
def IsLeaf : Ty → Bool
  | .bool => true
  | .int _ => true
  | .uint _ => true
  | .float _ => true
  | .str => true
  | .textual => true
  | _ => false

/-! Concrete shapes used to instantiate theorems on explicit inputs. -/

/-- A trivially succeeding text-unmarshal operation. -/
def tuT : String → Bool := fun _ => true

/-- A plain exported field with no tags. -/
def fi0 (n : String) : FieldInfo := ⟨n, "", "", "", false⟩

/-- The test suite's `Sub` struct: two int fields `A` and `B`. -/
def SubT : Ty := .struct [(fi0 ("A"), .int 64), (fi0 ("B"), .int 64)]

/-- A struct with one exported field of shape `map[int]int`. -/
def BadMapT : Ty := .struct [(fi0 ("Bad"), .map (.int 64) (.int 64))]

/-- A struct with one exported channel-shaped field. -/
def BadChanT : Ty := .struct [(fi0 ("Bad"), .chanT)]

/-! Helper lemmas shared by the claim theorems. -/

theorem one_le_sizeOf_ty : ∀ ty : Ty, 1 ≤ sizeOf ty := by
  intro ty
  cases ty <;> simp_arith

/-- Every leaf decoder routes through `primitive`: a non-empty keytail is
a `NestingError`. -/
theorem leaf_nesting_error (tu : String → Bool) (key keytail : String)
    (values : List String) (ty : Ty) (target : Val)
    (hleaf : IsLeaf ty = true) (hne : keytail ≠ "") :
    parse tu key keytail values ty target =
      .error (.nesting (kpath key keytail) ty keytail) := by
  cases ty <;> simp_all [IsLeaf, parse, parseBool, parseInt, parseUint,
    parseFloat, parseString, parseTextUnmarshaler, primitive]

/-- Every leaf decoder routes through `primitive`: with an empty keytail,
a value count other than one is a `SingletonError`. -/
theorem leaf_singleton_error (tu : String → Bool) (key : String)
    (values : List String) (ty : Ty) (target : Val)
    (hleaf : IsLeaf ty = true) (hlen : values.length ≠ 1) :
    parse tu key ("") values ty target =
      .error (.singleton (kpath key ("")) ty values) := by
  cases ty <;> simp_all [IsLeaf, parse, parseBool, parseInt, parseUint,
    parseFloat, parseString, parseTextUnmarshaler, primitive]

/-- A leaf decode can only succeed with an empty keytail and exactly one
value. -/
theorem leaf_ok_arity (tu : String → Bool) (key keytail : String)
    (values : List String) (ty : Ty) (target : Val)
    (hleaf : IsLeaf ty = true) (r : Val)
    (hr : parse tu key keytail values ty target = .ok r) :
    keytail = "" ∧ values.length = 1 := by
  by_cases hkt : keytail = ""
  · subst hkt
    by_cases hlen : values.length = 1
    · exact ⟨rfl, hlen⟩
    · rw [leaf_singleton_error tu key values ty target hleaf hlen] at hr
      exact absurd hr (by simp)
  · rw [leaf_nesting_error tu key keytail values ty target hleaf hkt] at hr
    exact absurd hr (by simp)

/-- Elementwise characterization of a successful `parseElems` run: one
element per value, each decoded alone into a zero element under the
synthesized debug key. -/
theorem parseElems_ok (tu : String → Bool) (kp : String) (et : Ty) :
    ∀ (vals : List String) (i : Nat) (es : List Val),
    parseElems tu kp i vals et = .ok es →
    es.length = vals.length ∧
    ∀ (j : Nat) (h : j < vals.length) (h2 : j < es.length),
      parse tu (kp ++ "[" ++ toString (i + j) ++ "]") ("") [vals.get ⟨j, h⟩]
        et (zeroVal et) = .ok (es.get ⟨j, h2⟩) := by
  intro vals
  induction vals with
  | nil =>
    intro i es he
    simp [parseElems] at he
    subst he
    exact ⟨rfl, by intro j h h2; exact absurd h (by simp)⟩
  | cons v rest ih =>
    intro i es he
    rw [parseElems] at he
    cases hp : parse tu (kp ++ "[" ++ toString i ++ "]") ("") [v] et (zeroVal et) with
    | error e => rw [hp] at he; exact absurd he (by simp)
    | ok x =>
      rw [hp] at he
      cases hrest : parseElems tu kp (i + 1) rest et with
      | error e => rw [hrest] at he; exact absurd he (by simp)
      | ok xs =>
        rw [hrest] at he
        simp at he
        subst he
        obtain ⟨hlen, helem⟩ := ih (i + 1) xs hrest
        refine ⟨by simp [hlen], ?_⟩
        intro j h h2
        match j with
        | 0 => simpa using hp
        | j + 1 =>
          have := helem j (by simpa using h) (by simpa using h2)
          have harith : i + (j + 1) = i + 1 + j := by omega
          rw [harith]
          simpa using this

/-- Updating one key of a string-keyed table leaves other keys alone. -/
theorem alookup_aset_ne {α : Type} (sc : List (String × α)) (name : String)
    (l : α) (k : String) (hne : name ≠ k) :
    alookup (aset sc name l) k = alookup sc k := by
  induction sc with
  | nil => simp [aset, alookup, hne]
  | cons hd rest ih =>
    obtain ⟨n, c⟩ := hd
    by_cases hn : n = name
    · subst hn
      simp [aset, alookup, hne]
    · simp [aset, alookup, hn]
      by_cases hk : n = k <;> simp [alookup, hk, ih]

/-- The cache-build loop never publishes a field under the name `"-"`. -/
theorem buildFields_no_dash (t : Ty) :
    ∀ (fs : List (FieldInfo × Ty)) (i : Nat) (sc0 sc : StructCache),
    buildFields t i fs sc0 = .ok sc → alookup sc0 ("-") = none →
    alookup sc ("-") = none := by
  intro fs
  induction fs with
  | nil =>
    intro i sc0 sc hb h0
    simp [buildFields] at hb
    exact hb ▸ h0
  | cons hd rest ih =>
    intro i sc0 sc hb h0
    obtain ⟨sf, fty⟩ := hd
    rw [buildFields] at hb
    by_cases hskip : sf.pkgPath ≠ "" ∧ ¬sf.anonymous
    · rw [if_pos hskip] at hb
      exact ih (i + 1) sc0 sc hb h0
    · rw [if_neg hskip] at hb
      by_cases hdash : extractName sf = "-"
      · simp only [hdash, if_true] at hb
        exact ih (i + 1) sc0 sc hb h0
      · simp only [if_neg hdash] at hb
        cases hh : extractHandler t sf fty with
        | error e => rw [hh] at hb; exact absurd hb (by simp)
        | ok h =>
          rw [hh] at hb
          refine ih (i + 1) _ sc hb ?_
          rw [alookup_aset_ne sc0 (extractName sf) ⟨i, h⟩ ("-") hdash]
          exact h0

/-- A cacheable channel-shaped field makes the whole cache build fail
with an `InvalidParseError` naming a field and the owning struct. -/
theorem buildFields_chanT (t : Ty) :
    ∀ (fs : List (FieldInfo × Ty)) (i : Nat) (sc0 : StructCache)
      (sf : FieldInfo),
    (sf, Ty.chanT) ∈ fs → (sf.pkgPath = "" ∨ sf.anonymous = true) →
    extractName sf ≠ "-" →
    ∃ name, buildFields t i fs sc0 =
      .error (.invalidParse t (some (.fieldInStruct name t))) := by
  intro fs
  induction fs with
  | nil =>
    intro i sc0 sf hmem
    exact absurd hmem (by simp)
  | cons hd rest ih =>
    intro i sc0 sf hmem hexp hname
    obtain ⟨g, gty⟩ := hd
    rw [buildFields]
    by_cases hskip : g.pkgPath ≠ "" ∧ ¬g.anonymous
    · rw [if_pos hskip]
      rcases List.mem_cons.mp hmem with heq | hmem2
      · have h1 : sf = g := congrArg Prod.fst heq
        subst h1
        rcases hexp with he | he
        · exact absurd he hskip.1
        · exact absurd he (by simpa using hskip.2)
      · exact ih (i + 1) sc0 sf hmem2 hexp hname
    · rw [if_neg hskip]
      by_cases hdash : extractName g = "-"
      · simp only [hdash, if_true]
        rcases List.mem_cons.mp hmem with heq | hmem2
        · have h1 : sf = g := congrArg Prod.fst heq
          exact absurd (h1 ▸ hdash) hname
        · exact ih (i + 1) sc0 sf hmem2 hexp hname
      · simp only [if_neg hdash]
        cases gty with
        | chanT =>
          exact ⟨g.name, by simp [extractHandler]⟩
        | _ =>
          rcases List.mem_cons.mp hmem with heq | hmem2
          · exact absurd (congrArg Prod.snd heq) (by simp)
          · simp only [extractHandler]
            exact ih (i + 1) _ sf hmem2 hexp hname

/-- When the fueled dispatcher has enough fuel for the element shape,
the fueled element loop never exhausts its fuel. -/
theorem parseElemsF_isSome (tu : String → Bool) (fuel : Nat) (et : Ty)
    (h : ∀ key keytail values target,
      (parseF tu fuel key keytail values et target).isSome = true) :
    ∀ (kp : String) (i : Nat) (vals : List String),
    (parseElemsF tu fuel kp i vals et).isSome = true := by
  intro kp i vals
  induction vals generalizing i with
  | nil => rw [parseElemsF]; rfl
  | cons v rest ih =>
    rw [parseElemsF]
    cases hp : parseF tu fuel (kp ++ "[" ++ toString i ++ "]") ("") [v] et
        (zeroVal et) with
    | none =>
      exact absurd (hp ▸ h (kp ++ "[" ++ toString i ++ "]") ("") [v] (zeroVal et))
        (by simp)
    | some r =>
      cases r with
      | error e => rfl
      | ok x =>
        cases hrest : parseElemsF tu fuel kp (i + 1) rest et with
        | none => exact absurd (hrest ▸ ih (i + 1)) (by simp)
        | some rr => cases rr <;> rfl

/-! The claim theorems. -/

/-- C1 (counterexample): decoding `M[a][B]` into a map whose entry `a`
already holds a struct with field `A` set to 1 does NOT preserve that
content: the resulting entry has `A` reset to 0 — the existing element is
replaced by a decode into a zero-valued element, contrary to the claim. -/
theorem map_existing_element_lost_counterexample :
    parse tuT ("M[a][B]") ("[a][B]") [("2")] (.map .str SubT)
      (.map (some [(("a"), .struct [.int 1, .int 0])])) =
      .ok (.map (some [(("a"), .struct [.int 0, .int 2])])) ∧
    ¬ parse tuT ("M[a][B]") ("[a][B]") [("2")] (.map .str SubT)
      (.map (some [(("a"), .struct [.int 1, .int 0])])) =
      .ok (.map (some [(("a"), .struct [.int 1, .int 2])])) := by
  have h1 : parse tuT ("M[a][B]") ("[a][B]") [("2")] (.map .str SubT)
      (.map (some [(("a"), .struct [.int 1, .int 0])])) =
      .ok (.map (some [(("a"), .struct [.int 0, .int 2])])) := by
    simp [parse, parseMap, keyed, splitOnce, mapKeyIsString, alookup, aset,
      mapIndexCanSet, zeroVal, zeroFields, parseStruct, parseStructField,
      applyHandler, buildStructCache, structFields, buildFields, extractHandler,
      extractName, truncAtComma, parseInt, primitive, theValue, goParseInt,
      digitsVal, allDigits, digitsFold, kpath, tyBits, SubT, fi0, tuT]
  refine ⟨h1, ?_⟩
  intro h2
  rw [h1] at h2
  simp at h2

/-- C1 (amended): for a map target with a string-kinded key shape, once
the bracket segment resolves to map key `mk`, the element decoded into is
always a fresh zero value of the element shape — the `MapIndex` fetch is
never settable (`mapIndexCanSet`), so an existing element under `mk` is
ignored and fully replaced by the written-back result. -/
theorem map_decodes_into_fresh_element (tu : String → Bool)
    (key keytail : String) (values : List String) (kt et : Ty)
    (es : List (String × Val)) (mk rest : String)
    (hk : keyed (.map kt et) key keytail = .ok (mk, rest))
    (hks : mapKeyIsString kt = true) :
    parse tu key keytail values (.map kt et) (.map (some es)) =
      (parse tu key rest values et (zeroVal et)).map
        (fun v => .map (some (aset es mk v))) := by
  rw [parse, parseMap, hk]
  simp only [hks, if_true, Option.getD_some]
  have hval : (match alookup es mk with
      | some old => if mapIndexCanSet then old else zeroVal et
      | none => zeroVal et) = zeroVal et := by
    cases alookup es mk <;> simp [mapIndexCanSet]
  rw [hval]
  cases parse tu key rest values et (zeroVal et) <;> simp [Except.map]

/-- C1 (witness): the amended theorem applied at a concrete input. -/
theorem map_decodes_into_fresh_element_witness :
    parse tuT ("M[k]") ("[k]") [("5")] (.map .str (.int 64))
      (.map (some [])) =
      (parse tuT ("M[k]") ("") [("5")] (.int 64) (zeroVal (.int 64))).map
        (fun v => .map (some (aset [] ("k") v))) :=
  map_decodes_into_fresh_element tuT ("M[k]") ("[k]") [("5")] .str (.int 64)
    [] ("k") ("") rfl rfl

/-- C2 (counterexample): building the metadata of a record with an
exported `map[int]int` field SUCCEEDS — `extractHandler` checks only that
the field's kind is map, not its key shape — so the claimed cache-build
failure does not occur. -/
theorem mapkey_cache_build_succeeds_counterexample :
    buildStructCache BadMapT = .ok [(("Bad"), ⟨0, .map⟩)] ∧
    (cacheStruct [] BadMapT).1 = .ok [(("Bad"), ⟨0, .map⟩)] := by
  constructor <;> rfl

/-- C2 (amended): the cache build accepts a map-shaped field regardless
of its key shape; the Invalid-shape error for a non-string map key occurs
at decode time, inside the map decoder, when a key addressing that field
is decoded. -/
theorem mapkey_checked_at_decode (s : Ty) (sf : FieldInfo) (kt et : Ty)
    (tu : String → Bool) (key keytail : String) (values : List String)
    (entries : Option (List (String × Val))) (mk rest : String)
    (hks : mapKeyIsString kt = false)
    (hk : keyed (.map kt et) key keytail = .ok (mk, rest)) :
    extractHandler s sf (.map kt et) = .ok .map ∧
    parse tu key keytail values (.map kt et) (.map entries) =
      .error (.invalidParse (.map kt et) (some (.mapKeysNotString kt))) := by
  refine ⟨rfl, ?_⟩
  rw [parse, parseMap, hk]
  simp [hks]

/-- C2 (witness): the amended theorem applied at a concrete input. -/
theorem mapkey_checked_at_decode_witness :
    extractHandler BadMapT (fi0 ("Bad")) (.map (.int 64) (.int 64)) =
      .ok .map ∧
    parse tuT ("Bad[123]") ("[123]") [("123")] (.map (.int 64) (.int 64))
      (.map none) =
      .error (.invalidParse (.map (.int 64) (.int 64))
        (some (.mapKeysNotString (.int 64)))) :=
  mapkey_checked_at_decode BadMapT (fi0 ("Bad")) (.int 64) (.int 64) tuT
    ("Bad[123]") ("[123]") [("123")] none ("123") ("") rfl rfl

/-- C3: a leaf-shaped target fails with a Nesting error on a non-empty
keytail, fails with a Singleton error on an empty keytail without exactly
one value, and can only decode successfully when the keytail is empty and
exactly one value is present. -/
theorem leaf_requires_empty_tail_single_value (tu : String → Bool)
    (key keytail : String) (values : List String) (ty : Ty) (target : Val)
    (hleaf : IsLeaf ty = true) :
    (keytail ≠ "" →
      parse tu key keytail values ty target =
        .error (.nesting (kpath key keytail) ty keytail)) ∧
    (keytail = "" → values.length ≠ 1 →
      parse tu key keytail values ty target =
        .error (.singleton (kpath key keytail) ty values)) ∧
    (∀ r : Val, parse tu key keytail values ty target = .ok r →
      keytail = "" ∧ values.length = 1) := by
  refine ⟨?_, ?_, ?_⟩
  · intro hne
    exact leaf_nesting_error tu key keytail values ty target hleaf hne
  · intro hkt hlen
    subst hkt
    exact leaf_singleton_error tu key values ty target hleaf hlen
  · intro r hr
    exact leaf_ok_arity tu key keytail values ty target hleaf r hr

/-- C3 (witness): the theorem applied at a concrete input. -/
theorem leaf_requires_empty_tail_single_value_witness :
    parse tuT ("S[]") ("[]") [("x")] .str (.str ("")) =
      .error (.nesting (kpath ("S[]") ("[]")) .str ("[]")) :=
  (leaf_requires_empty_tail_single_value tuT ("S[]") ("[]") [("x")] .str
    (.str ("")) rfl).1 (by decide)

/-- C4: a sequence target accepts only the exact keytail `"[]"` — any
other keytail is a Nesting error — and a successful decode yields a fully
rebuilt sequence with one element per supplied value, element `i` being
the decode of `values[i]` alone, independent of whatever sequence the
target previously held (no incremental appends). -/
theorem slice_requires_flat_marker (tu : String → Bool)
    (key keytail : String) (values : List String) (et : Ty) (target : Val) :
    (keytail ≠ "[]" →
      parse tu key keytail values (.slice et) target =
        .error (.nesting (kpath key keytail) (.slice et) keytail)) ∧
    (∀ es : List Val,
      parse tu key ("[]") values (.slice et) target = .ok (.slice (some es)) →
      es.length = values.length ∧
      ∀ (i : Nat) (h : i < values.length) (h2 : i < es.length),
        parse tu (kpath key ("[]") ++ "[" ++ toString i ++ "]") ("")
          [values.get ⟨i, h⟩] et (zeroVal et) = .ok (es.get ⟨i, h2⟩)) ∧
    (∀ r : Val, parse tu key ("[]") values (.slice et) target = .ok r →
      ∃ es : List Val, r = .slice (some es)) ∧
    (parse tu key keytail values (.slice et) target =
      parse tu key keytail values (.slice et) (zeroVal (.slice et))) := by
  refine ⟨?_, ?_, ?_, ?_⟩
  · intro hne
    simp [parse, parseSlice, hne]
  · intro es hr
    rw [parse, parseSlice] at hr
    simp only [if_neg (by simp : ¬("[]" : String) ≠ "[]")] at hr
    cases he : parseElems tu (kpath key ("[]")) 0 values et with
    | error e => rw [he] at hr; exact absurd hr (by simp)
    | ok elems =>
      rw [he] at hr
      have hes : elems = es := by simpa using hr
      subst hes
      obtain ⟨hlen, helem⟩ := parseElems_ok tu (kpath key ("[]")) et values 0 elems he
      exact ⟨hlen, fun i h h2 => by simpa using helem i h h2⟩
  · intro r hr
    rw [parse, parseSlice] at hr
    simp only [if_neg (by simp : ¬("[]" : String) ≠ "[]")] at hr
    cases he : parseElems tu (kpath key ("[]")) 0 values et with
    | error e => rw [he] at hr; exact absurd hr (by simp)
    | ok elems =>
      rw [he] at hr
      simp at hr
      exact ⟨elems, hr.symm⟩
  · simp [parse, parseSlice]

/-- C4 (witness): the theorem applied at a concrete input. -/
theorem slice_requires_flat_marker_witness :
    parse tuT ("S") ("") [("1")] (.slice (.int 64)) (.slice none) =
      .error (.nesting (kpath ("S") ("")) (.slice (.int 64)) ("")) :=
  (slice_requires_flat_marker tuT ("S") ("") [("1")] (.int 64)
    (.slice none)).1 (by decide)

/-- C5: a nil pointer slot is filled with a fresh zero value of the
pointee shape and decoding recurses with the unmodified keytail and
values; through a doubly-indirected target both levels are allocated in
one call and the final value is exactly the decode of the innermost
shape. -/
theorem ptr_auto_allocates (tu : String → Bool) (key keytail : String)
    (values : List String) (et : Ty) :
    (parse tu key keytail values (.ptr et) (.ptr none) =
      (parse tu key keytail values et (zeroVal et)).map
        (fun v => .ptr (some v))) ∧
    (parse tu key keytail values (.ptr (.ptr et)) (.ptr none) =
      (parse tu key keytail values et (zeroVal et)).map
        (fun v => .ptr (some (.ptr (some v))))) := by
  have h1 : ∀ t2 : Ty, parse tu key keytail values (.ptr t2) (.ptr none) =
      (parse tu key keytail values t2 (zeroVal t2)).map
        (fun v => .ptr (some v)) := by
    intro t2
    rw [parse, parsePtr]
    cases parse tu key keytail values t2 (zeroVal t2) <;> simp [Except.map]
  refine ⟨h1 et, ?_⟩
  rw [h1 (.ptr et)]
  simp only [zeroVal]
  rw [h1 et]
  cases parse tu key keytail values et (zeroVal et) <;> simp [Except.map]

/-- C6: a field's external name is the decode-name tag when non-empty,
else the serialization-name tag truncated at its first comma when
non-empty, else the declared identifier; and no field table ever contains
the name `"-"`, so a key addressing `"-"` fails with a Key error. -/
theorem field_name_precedence_and_dash_excluded (sf : FieldInfo) (t : Ty)
    (sc : StructCache) (tu : String → Bool) (key keytail : String)
    (values : List String) (target : Val) :
    (sf.paramTag ≠ "" → extractName sf = sf.paramTag) ∧
    (sf.paramTag = "" → truncAtComma sf.jsonTag ≠ "" →
      extractName sf = truncAtComma sf.jsonTag) ∧
    (sf.paramTag = "" → truncAtComma sf.jsonTag = "" →
      extractName sf = sf.name) ∧
    (buildStructCache t = .ok sc →
      alookup sc ("-") = none ∧
      parseStructField tu sc key ("-") keytail values t target =
        .error (.keyErr key (kpath key keytail) t ("-"))) := by
  refine ⟨?_, ?_, ?_, ?_⟩
  · intro h
    simp [extractName, h]
  · intro h1 h2
    simp [extractName, h1, h2]
  · intro h1 h2
    simp [extractName, h1, h2]
  · intro hb
    have h4 : alookup sc ("-") = none :=
      buildFields_no_dash t (structFields t) 0 [] sc hb rfl
    exact ⟨h4, by simp [parseStructField, h4]⟩

/-- C6 (witness): the theorem applied at a concrete input: a field whose
decode-name tag is `"-"` is excluded, and addressing `"-"` is a Key
error. -/
theorem field_name_precedence_and_dash_excluded_witness :
    alookup ([] : StructCache) ("-") = none ∧
    parseStructField tuT [] ("-") ("-") ("") [("1")]
      (.struct [(⟨("X"), ("-"), (""), (""), false⟩, .int 64)])
      (.struct [.int 0]) =
      .error (.keyErr ("-") (kpath ("-") (""))
        (.struct [(⟨("X"), ("-"), (""), (""), false⟩, .int 64)]) ("-")) :=
  (field_name_precedence_and_dash_excluded ⟨("X"), ("-"), (""), (""), false⟩
    (.struct [(⟨("X"), ("-"), (""), (""), false⟩, .int 64)]) [] tuT ("-") ("")
    [("1")] (.struct [.int 0])).2.2.2 rfl

/-- C7: the entry point rejects any target that is not a non-nil pointer
to a struct with an Invalid-shape error whose hint distinguishes a nil
pointer (`nilTarget`) from a non-struct target (`targetNotStructPtr`);
the error is the same for every input multimap, so no input key is
processed. -/
theorem parse_requires_struct_pointer (tu : String → Bool)
    (params : List (String × List String)) (ty et : Ty) (target v : Val) :
    ((∀ et2 : Ty, ty ≠ .ptr et2) →
      Parse tu params ty target =
        .error (.invalidParse ty (some .targetNotStructPtr))) ∧
    (Parse tu params (.ptr et) (.ptr none) =
      .error (.invalidParse (.ptr et) (some .nilTarget))) ∧
    ((∀ fs, et ≠ .struct fs) →
      Parse tu params (.ptr et) (.ptr (some v)) =
        .error (.invalidParse (.ptr et) (some .targetNotStructPtr))) := by
  refine ⟨?_, ?_, ?_⟩
  · intro h
    cases ty with
    | ptr et2 => exact absurd rfl (h et2)
    | _ => cases target <;> rfl
  · rfl
  · intro h
    cases et with
    | struct fs => exact absurd rfl (h fs)
    | _ => rfl

/-- C7 (witness): the theorem applied at concrete inputs with a non-empty
multimap, showing all three rejection shapes. -/
theorem parse_requires_struct_pointer_witness :
    Parse tuT [(("A"), [("1")])] .bool (.bool false) =
      .error (.invalidParse .bool (some .targetNotStructPtr)) ∧
    Parse tuT [(("A"), [("1")])] (.ptr (.struct [])) (.ptr none) =
      .error (.invalidParse (.ptr (.struct [])) (some .nilTarget)) ∧
    Parse tuT [(("A"), [("1")])] (.ptr .bool) (.ptr (some (.bool true))) =
      .error (.invalidParse (.ptr .bool) (some .targetNotStructPtr)) := by
  obtain ⟨h1, h2, h3⟩ := parse_requires_struct_pointer tuT [(("A"), [("1")])]
    .bool .bool (.bool false) (.bool true)
  refine ⟨h1 (fun et2 h => Ty.noConfusion h), ?_, h3 (fun fs h => Ty.noConfusion h)⟩
  exact parse_requires_struct_pointer tuT [(("A"), [("1")])] .bool
    (.struct []) (.bool false) (.bool true) |>.2.1

/-- C8: the entry point builds the target struct's metadata before
iterating any input pair: a struct containing a cacheable channel-shaped
field makes `Parse` fail with an Invalid-shape error naming a field and
the owning struct, for every input multimap, including the empty one. -/
theorem parse_builds_metadata_first (tu : String → Bool)
    (params : List (String × List String)) (fs : List (FieldInfo × Ty))
    (el : Val) (sf : FieldInfo)
    (hmem : (sf, Ty.chanT) ∈ fs)
    (hexp : sf.pkgPath = "" ∨ sf.anonymous = true)
    (hname : extractName sf ≠ "-") :
    ∃ name, Parse tu params (.ptr (.struct fs)) (.ptr (some el)) =
      .error (.invalidParse (.struct fs)
        (some (.fieldInStruct name (.struct fs)))) := by
  obtain ⟨name, hb⟩ :=
    buildFields_chanT (.struct fs) fs 0 [] sf hmem hexp hname
  exact ⟨name, by simp [Parse, buildStructCache, structFields, hb]⟩

/-- C8 (witness): the theorem applied to a struct with a channel field
and an empty input multimap. -/
theorem parse_builds_metadata_first_witness :
    ∃ name, Parse tuT [] (.ptr BadChanT) (.ptr (some (.struct [.chanV]))) =
      .error (.invalidParse BadChanT (some (.fieldInStruct name BadChanT))) :=
  parse_builds_metadata_first tuT [] [(fi0 ("Bad"), Ty.chanT)]
    (.struct [.chanV]) (fi0 ("Bad")) (by simp) (Or.inl rfl) (by decide)

/-- C9: a failed metadata build publishes nothing: when `cacheStruct`
returns an error, the cache state is returned unchanged, and the lookup
for that shape still misses, so a subsequent call re-attempts the build
from scratch. -/
theorem cache_unchanged_on_build_error (c : Cache) (t : Ty) (e : Err)
    (h : (cacheStruct c t).1 = .error e) :
    cacheStruct c t = (.error e, c) ∧ cacheLookup c t = none := by
  cases hl : cacheLookup c t with
  | some sc =>
    have hok : (cacheStruct c t).1 = .ok sc := by rw [cacheStruct, hl]
    rw [h] at hok
    exact absurd hok (by simp)
  | none =>
    cases hb : buildStructCache t with
    | error e2 =>
      have heq : cacheStruct c t = (.error e2, c) := by rw [cacheStruct, hl, hb]
      have he : e2 = e := by rw [heq] at h; simpa using h
      subst he
      exact ⟨heq, rfl⟩
    | ok sc =>
      have hok : (cacheStruct c t).1 = .ok sc := by rw [cacheStruct, hl, hb]
      rw [h] at hok
      exact absurd hok (by simp)

/-- C9 (witness): the theorem applied to the empty cache and a struct
whose build fails on a channel field. -/
theorem cache_unchanged_on_build_error_witness :
    cacheStruct [] BadChanT =
      (.error (.invalidParse BadChanT (some (.fieldInStruct ("Bad") BadChanT))), []) ∧
    cacheLookup [] BadChanT = none :=
  cache_unchanged_on_build_error [] BadChanT
    (.invalidParse BadChanT (some (.fieldInStruct ("Bad") BadChanT))) rfl

/-- C10: the decode recursion terminates on every input: with its depth
made explicit as fuel, the dispatcher never exhausts a fuel budget of
`sizeOf` of the target shape — each recursion step either strips a
bracket segment and moves to a structurally smaller shape (map, sequence,
record) or removes one layer of pointer indirection — so no key/shape
combination recurses unboundedly. -/
theorem decode_depth_bounded (tu : String → Bool) :
    ∀ (fuel : Nat) (ty : Ty), sizeOf ty ≤ fuel →
    ∀ (key keytail : String) (values : List String) (target : Val),
    (parseF tu fuel key keytail values ty target).isSome = true := by
  intro fuel
  induction fuel with
  | zero =>
    intro ty hty
    exact absurd hty (by have := one_le_sizeOf_ty ty; omega)
  | succ fuel ih =>
    intro ty hty key keytail values target
    cases ty with
    | bool => rw [parseF]; rfl
    | int b => rw [parseF]; rfl
    | uint b => rw [parseF]; rfl
    | float b => rw [parseF]; rfl
    | str => rw [parseF]; rfl
    | textual => rw [parseF]; rfl
    | chanT => rw [parseF]; rfl
    | map kt et =>
      have het : sizeOf et ≤ fuel := by
        have hs : sizeOf (Ty.map kt et) = 1 + sizeOf kt + sizeOf et := by simp
        have h1 := one_le_sizeOf_ty kt
        omega
      cases target with
      | map entries =>
        cases hk : keyed (Ty.map kt et) key keytail with
        | error e => simp [parseF, hk]
        | ok kr =>
          cases hks : mapKeyIsString kt with
          | false => simp [parseF, hk, hks]
          | true =>
            cases ha : alookup (entries.getD []) kr.1 with
            | none =>
              cases hinner : parseF tu fuel key kr.2 values et (zeroVal et) with
              | none =>
                have hs := ih et het key kr.2 values (zeroVal et)
                rw [hinner] at hs
                simp at hs
              | some r =>
                cases r <;> simp [parseF, hk, hks, ha, hinner]
            | some old =>
              cases hinner : parseF tu fuel key kr.2 values et (zeroVal et) with
              | none =>
                have hs := ih et het key kr.2 values (zeroVal et)
                rw [hinner] at hs
                simp at hs
              | some r =>
                cases r <;> simp [parseF, hk, hks, ha, hinner, mapIndexCanSet]
      | _ => simp [parseF]
    | ptr et =>
      have het : sizeOf et ≤ fuel := by
        have hs : sizeOf (Ty.ptr et) = 1 + sizeOf et := by simp
        omega
      cases target with
      | ptr p =>
        cases hinner : parseF tu fuel key keytail values et (p.getD (zeroVal et)) with
        | none =>
          have hs := ih et het key keytail values (p.getD (zeroVal et))
          rw [hinner] at hs
          simp at hs
        | some r => cases r <;> simp [parseF, hinner]
      | _ => simp [parseF]
    | slice et =>
      have het : sizeOf et ≤ fuel := by
        have hs : sizeOf (Ty.slice et) = 1 + sizeOf et := by simp
        omega
      by_cases hkt : keytail = "[]"
      · subst hkt
        cases he : parseElemsF tu fuel (kpath key ("[]")) 0 values et with
        | none =>
          have hs := parseElemsF_isSome tu fuel et
            (fun k2 kt2 v2 t2 => ih et het k2 kt2 v2 t2) (kpath key ("[]")) 0 values
          rw [he] at hs
          simp at hs
        | some r => cases r <;> simp [parseF, he]
      · simp [parseF, hkt]
    | struct fs =>
      cases target with
      | struct fvals =>
        cases hk : keyed (Ty.struct fs) key keytail with
        | error e => simp [parseF, hk]
        | ok kr =>
          cases hb : buildStructCache (Ty.struct fs) with
          | error e => simp [parseF, hk, hb]
          | ok sc =>
            cases hl : alookup sc kr.1 with
            | none => simp [parseF, hk, hb, hl]
            | some l =>
              cases hp : fs[l.offset]? with
              | none => simp [parseF, hk, hb, hl, hp]
              | some p =>
                have hmem : p ∈ fs := by
                  rcases List.getElem?_eq_some.mp hp with ⟨hlt, heq⟩
                  exact heq ▸ List.getElem_mem hlt
                have hlt2 : sizeOf p.2 ≤ fuel := by
                  have h1 := sizeOf_field_lt hmem
                  omega
                cases hinner : parseF tu fuel key kr.2 values p.2
                    (fvals[l.offset]?.getD (zeroVal p.2)) with
                | none =>
                  have hs := ih p.2 hlt2 key kr.2 values
                    (fvals[l.offset]?.getD (zeroVal p.2))
                  rw [hinner] at hs
                  simp at hs
                | some r => cases r <;> simp [parseF, hk, hb, hl, hp, hinner]
      | _ => simp [parseF]

/-- C10 (witness): the theorem applied at a concrete fuel, shape and
input. -/
theorem decode_depth_bounded_witness :
    (parseF tuT 5 ("M[a]") ("[a]") [("true")] (.map .str .bool)
      (.map none)).isSome = true :=
  decode_depth_bounded tuT 5 (.map .str .bool) (by decide) ("M[a]") ("[a]")
    [("true")] (.map none)

end Param
